import Mathlib

/-!
Shallow embedding of the currency utilities of this repository:
src/js/utils/currency.js and src/js/models/listing/Price.js.

JavaScript numbers and bignumber.js values are modelled as exact rationals,
with an added non-finite element (NaN or an infinity) where the code can
produce one. Registry data modules that the repository imports but that are
not part of src/ (src/js/data/currencies.js, src/js/data/walletCurrencies.js,
src/js/data/cryptoListingCurrencies.js, src/js/utils/number.js) are modelled
from the specification, as marked on each such definition.
-/

/-- A JavaScript number or bignumber.js value: `some q` is the finite value
`q`; `none` stands for a non-finite value (NaN, or an infinity produced by
dividing by zero). -/
abbrev JsNum := Option ℚ

/-- Decidable equality for Except results, used to state and check concrete
runs of the embedded functions. -/
instance {ε α : Type} [DecidableEq ε] [DecidableEq α] : DecidableEq (Except ε α) :=
  fun x y =>
    match x, y with
    | .ok a, .ok b =>
      if h : a = b then isTrue (by rw [h])
      else isFalse (fun c => h (by injection c))
    | .error a, .error b =>
      if h : a = b then isTrue (by rw [h])
      else isFalse (fun c => h (by injection c))
    | .ok _, .error _ => isFalse (fun c => Except.noConfusion c)
    | .error _, .ok _ => isFalse (fun c => Except.noConfusion c)

/-- toUpperCase of JavaScript as applied to currency codes (ASCII letters). -/
def jsToUpper (s : String) : String := ⟨s.data.map Char.toUpper⟩

/-- Math.round of JavaScript: round to the nearest integer, halves toward
positive infinity. -/
def jsMathRound (q : ℚ) : ℤ := ⌊q + 1 / 2⌋

/-- decimalPlaces(0) of bignumber.js under its default ROUND_HALF_UP mode:
round to the nearest integer, halves away from zero. -/
def bnRoundHalfUp (q : ℚ) : ℤ := if 0 ≤ q then ⌊q + 1 / 2⌋ else -⌊-q + 1 / 2⌋

/-- Division on JS or bignumber values: a non-finite operand propagates, and
dividing a finite value by zero gives a non-finite result (an infinity). -/
def jsDiv (a b : JsNum) : JsNum :=
  match a, b with
  | some x, some y => if y = 0 then none else some (x / y)
  | _, _ => none

/-- Multiplication on JS or bignumber values: a non-finite operand propagates. -/
def jsMul (a b : JsNum) : JsNum :=
  match a, b with
  | some x, some y => some (x * y)
  | _, _ => none

/-- Lookup of a key in an association list, mirroring a JavaScript object
property access (first matching key wins; absent key gives undefined). -/
def alookup {β : Type} : List (String × β) → String → Option β
  | [], _ => none
  | (k, v) :: rest, c => if k = c then some v else alookup rest c

/-- Error values thrown by the currency module: the UnrecognizedCurrencyError
and NoExchangeRateDataError classes, and plain Error with a message. -/
inductive CurError where
  | unrecognizedCurrency
  | noExchangeRateData
  | genericError (msg : String)
deriving DecidableEq, Repr

/-- Modelled from the spec: the fiat currency registry
(src/js/data/currencies.js is not under src/). Section 6 describes a
read-only fiat registry keyed by code; USD is the representative fiat code
of section 8. -/
def fiatCurrencyCodes : List String := ["USD", "EUR", "GBP", "JPY", "CAD", "AUD"]

/-- Modelled from the spec: the wallet currency registry
(src/js/data/walletCurrencies.js is not under src/), mapping each wallet
currency code to its declared coinDivisibility. Section 2 gives 8 for
BTC-like assets and the glossary lists test network variants such as TBTC. -/
def walletCurrencies : List (String × Nat) :=
  [("BTC", 8), ("BCH", 8), ("LTC", 8), ("ZEC", 8),
   ("TBTC", 8), ("TBCH", 8), ("TLTC", 8), ("TZEC", 8)]

/-- Modelled from the spec: the crypto listing currency list
(src/js/data/cryptoListingCurrencies.js is not under src/): string codes
only, with no metadata record. -/
def cryptoListingCurrencyCodes : List String :=
  ["BTC", "BCH", "LTC", "ZEC", "ETH", "XMR", "DOGE"]

/-- Modelled from the spec: ensureMainnetCode of src/js/data/walletCurrencies.js
(not under src/) normalizes test network codes to their mainnet equivalent
(glossary: TBTC maps to BTC); mainnet and unknown codes are unchanged. -/
def ensureMainnetCode (code : String) : String :=
  if code = "TBTC" then "BTC"
  else if code = "TBCH" then "BCH"
  else if code = "TLTC" then "LTC"
  else if code = "TZEC" then "ZEC"
  else code

/-- A currency data record: fiat records carry no coin divisibility, wallet
records carry their declared coinDivisibility. -/
structure CurData where
  code : String
  coinDivisibility : Option Nat
deriving DecidableEq, Repr

/-- getCurrencyByCode of src/js/data/currencies.js with includeWalletCurs
false: a lookup in the fiat registry (registry modelled from the spec). -/
def getCurrencyByCode (code : String) : Option CurData :=
  if code ∈ fiatCurrencyCodes then some ⟨code, none⟩ else none

/-- getCurrencyByCode of src/js/data/walletCurrencies.js: a lookup in the
wallet currency registry (registry modelled from the spec). -/
def getWalletCurByCode (code : String) : Option CurData :=
  (alookup walletCurrencies code).map (fun d => ⟨code, some d⟩)

/-- Currency metadata as returned by getCurMeta: curData is the fiat record
when fiat, else the wallet record, else none. -/
structure CurMeta where
  isFiat : Bool
  isWalletCur : Bool
  isCryptoListingCur : Bool
  curData : Option CurData
deriving DecidableEq, Repr

/-- getCurMeta of src/js/utils/currency.js (lines 55 to 85): classifies an
uppercased code against the three registries and fails with
UnrecognizedCurrencyError when none match. -/
def getCurMeta (currency : String) : Except CurError CurMeta :=
  if currency = "" then
    .error (.genericError "Please provide a currrency as a non-empty string.")
  else
    let cur := jsToUpper currency
    let curData := getCurrencyByCode cur
    let walletCur := getWalletCurByCode cur
    let isFiat := curData.isSome
    let isCryptoListingCur := cryptoListingCurrencyCodes.contains cur
    let isWalletCur := walletCur.isSome
    if ¬(isFiat || isCryptoListingCur || isWalletCur) then
      .error .unrecognizedCurrency
    else
      .ok ⟨isFiat, isWalletCur, isCryptoListingCur,
        curData.orElse (fun _ => walletCur)⟩

/-- isFiatCur of src/js/utils/currency.js (lines 87 to 89). -/
def isFiatCur (cur : String) : Except CurError Bool :=
  (getCurMeta cur).map CurMeta.isFiat

/-- defaultCryptoCoinDivisibility of src/js/utils/currency.js (line 91). -/
def defaultCryptoCoinDivisibility : Nat := 8

/-- defaultFiatCoinDivisibility of src/js/utils/currency.js (line 92). -/
def defaultFiatCoinDivisibility : Nat := 2

/-- isValidCoinDivisibility (lines 45 to 50): the divisibility must be an
integer greater than 0. Returns the validity flag paired with the error
message, as the source does. -/
def isValidCoinDivisibility (d : ℚ) : Bool × String :=
  (d.den == 1 && decide (0 < d),
    "The coin divisibility must be an integer greater than 0")

/-- A wallet currency definition object (options.walletCurDef or
app.walletCurDef): currency code mapped to an entry with a divisibility. -/
abbrev WalletCurDef := List (String × Nat)

/-- getCoinDivisibility of src/js/utils/currency.js (lines 103 to 138).
optionsWalletCurDef models options.walletCurDef; appWalletCurDef models
app.walletCurDef, none when the app module value is unavailable. The
per-call definition, when provided, is used in place of the app one; the
raw (not uppercased) code is looked up in it, and on a miss resolution
falls to the registry classification. -/
def getCoinDivisibility (currency : String)
    (optionsWalletCurDef appWalletCurDef : Option WalletCurDef) :
    Except CurError Nat :=
  if currency = "" then
    .error (.genericError "Please provide a currrency as a non-empty string.")
  else
    let walletCurDef := match optionsWalletCurDef with
      | some d => some d
      | none => appWalletCurDef
    match walletCurDef with
    | none => .error (.genericError
        "The wallet currency definition must be provide as an object")
    | some wcd =>
      match alookup wcd currency with
      | some divisibility => .ok divisibility
      | none =>
        match getCurMeta currency with
        | .error e => .error e
        | .ok curMeta =>
          if curMeta.isFiat then .ok 2
          else if curMeta.isWalletCur then
            .ok ((curMeta.curData.bind CurData.coinDivisibility).getD 0)
          else if curMeta.isCryptoListingCur then
            .ok defaultCryptoCoinDivisibility
          else .error .unrecognizedCurrency

/-- Modelled from the spec: the resolution order of section 4.1 read as a
plain fallback chain, in which the process-wide definition is consulted
whenever the per-call definition does not contain the code. Stated only to
be compared with getCoinDivisibility, which embeds the source. -/
def getCoinDivisibilitySpecOrder (currency : String)
    (optionsWalletCurDef appWalletCurDef : Option WalletCurDef) :
    Except CurError Nat :=
  match alookup (optionsWalletCurDef.getD []) currency with
  | some divisibility => .ok divisibility
  | none =>
    match alookup (appWalletCurDef.getD []) currency with
    | some divisibility => .ok divisibility
    | none =>
      match getCurMeta currency with
      | .error e => .error e
      | .ok curMeta =>
        if curMeta.isFiat then .ok 2
        else if curMeta.isWalletCur then
          .ok ((curMeta.curData.bind CurData.coinDivisibility).getD 0)
        else if curMeta.isCryptoListingCur then
          .ok defaultCryptoCoinDivisibility
        else .error .unrecognizedCurrency

/-- A JavaScript value passed to the base-unit converters: a number (possibly
NaN), a numeric string represented by the bignumber.js value it parses to
(none when it parses to NaN), or a value of any other type. -/
inductive JSVal where
  | num (x : JsNum)
  | str (x : Option ℚ)
  | other
deriving DecidableEq, Repr

/-- bigNumber(value): numbers and numeric strings carry their value; NaN
inputs and unparsable strings give NaN. -/
def bigNumberOf : JSVal → Option ℚ
  | .num x => x
  | .str x => x
  | .other => none

/-- decimalToInteger of src/js/utils/currency.js (lines 171 to 189): converts
a decimal amount to a base-unit integer as round(value * 10^divisibility)
with bignumber.js arithmetic and its default half-away-from-zero rounding.
A NaN input yields a NaN result string (ok none) rather than an error. -/
def decimalToInteger (value : JSVal) (divisibility : ℚ) :
    Except CurError (Option ℤ) :=
  if value = .other then
    .error (.genericError "The value must be provided as a number or a string.")
  else
    let v := isValidCoinDivisibility divisibility
    if ¬v.1 then .error (.genericError v.2)
    else
      .ok ((bigNumberOf value).map
        (fun q => bnRoundHalfUp (q * 10 ^ divisibility.num.toNat)))

/-- The try block of integerToDecimal (lines 213 to 234): type check, then
divisibility check, then value / 10^divisibility with a NaN check on the
result (the quotient is NaN exactly when the parsed value is). -/
def integerToDecimalCore (value : JSVal) (divisibility : ℚ) :
    Except CurError ℚ :=
  if value = .other then
    .error (.genericError "The value must be provided as a number or a string.")
  else
    let v := isValidCoinDivisibility divisibility
    if ¬v.1 then .error (.genericError v.2)
    else
      match bigNumberOf value with
      | none => .error (.genericError "result is not a number")
      | some q => .ok (q / 10 ^ divisibility.num.toNat)

/-- integerToDecimal of src/js/utils/currency.js (lines 205 to 244): on any
failure of the try block, with returnUndefinedOnError (the default) the
error is logged and undefined is returned (ok none); otherwise it is
rethrown. -/
def integerToDecimal (value : JSVal) (divisibility : ℚ)
    (returnUndefinedOnError : Bool) : Except CurError (Option ℚ) :=
  match integerToDecimalCore value divisibility with
  | .ok q => .ok (some q)
  | .error e => if returnUndefinedOnError then .ok none else .error e

/-- Modelled from the spec: preciseRound of src/js/utils/number.js (not under
src/) rounds a number to the given number of decimal places (the rounded
display of section 4.6). -/
def preciseRound (amount : ℚ) (decimals : ℕ) : ℚ :=
  (jsMathRound (amount * 10 ^ decimals) : ℚ) / 10 ^ decimals

/-- isFormattedResultZero of src/js/utils/currency.js (lines 246 to 253):
whether the amount rounded to maxDecimals places displays as zero, that is,
rounds below the smallest positive value with maxDecimals decimal places. -/
def isFormattedResultZero (amount : ℚ) (maxDecimals : ℕ) : Bool :=
  if maxDecimals = 0 then true
  else decide (preciseRound amount maxDecimals < 1 / 10 ^ maxDecimals)

/-- MAX_NUMBER_FORMAT_DISPLAY_DECIMALS of src/js/utils/currency.js (line 256). -/
def MAX_NUMBER_FORMAT_DISPLAY_DECIMALS : ℕ := 20

/-- The while loop of getMaxDisplayDigits (lines 281 to 286): increment max
while the formatted result is zero and max is below the Intl ceiling. -/
def getMaxDisplayDigitsLoop (amount : ℚ) (max : ℕ) : ℕ :=
  if h : isFormattedResultZero amount max = true ∧
      max < MAX_NUMBER_FORMAT_DISPLAY_DECIMALS then
    getMaxDisplayDigitsLoop amount (max + 1)
  else max
termination_by MAX_NUMBER_FORMAT_DISPLAY_DECIMALS - max
decreasing_by omega

/-- getMaxDisplayDigits of src/js/utils/currency.js (lines 261 to 289). -/
def getMaxDisplayDigits (amount : ℚ) (desiredMax : ℕ) : ℕ :=
  if amount = 0 then desiredMax
  else if desiredMax = 0 then 0
  else getMaxDisplayDigitsLoop amount desiredMax

/-- The display-decimal selection of formatCurrency (lines 363 to 384): the
maximum display decimals default to the coin divisibility of the uppercased
code (falling back to the crypto default when that fails), are extended via
getMaxDisplayDigits for positive amounts when extendMaxDecimalsOnZero is
set, and are clamped to the Intl ceiling of 20. The subsequent
Intl.NumberFormat rendering is an external collaborator; a formatted amount
reads as zero exactly when isFormattedResultZero holds at the chosen
maximum. -/
def formatCurrencyMaxDecimals (amount : ℚ) (currency : String)
    (maxDisplayDecimals : Option ℕ) (extendMaxDecimalsOnZero : Bool)
    (appWalletCurDef : Option WalletCurDef) : ℕ :=
  let cur := jsToUpper currency
  let max0 := match maxDisplayDecimals with
    | some m => m
    | none =>
      match getCoinDivisibility cur none appWalletCurDef with
      | .ok d => d
      | .error _ => defaultCryptoCoinDivisibility
  let max1 := if 0 < amount ∧ extendMaxDecimalsOnZero = true then
      getMaxDisplayDigits amount max0
    else max0
  if MAX_NUMBER_FORMAT_DISPLAY_DECIMALS < max1 then
    MAX_NUMBER_FORMAT_DISPLAY_DECIMALS
  else max1

/-- The process-wide exchange rate table: currency code mapped to rate. -/
abbrev RateTable := List (String × ℚ)

/-- Property access exchangeRates[cur]. -/
def lookupRate (rates : RateTable) (cur : String) : Option ℚ :=
  alookup rates cur

/-- The in-process events emitted by the fetch completion handler. -/
inductive RateEvent where
  | exchangeRateChange (changed : List String)
  | exchangeRateChangeFor (code : String) (previous : Option ℚ)
deriving DecidableEq, Repr

/-- One step of filling the changed Set of the fetch handler: add the code
when its value differs between the old table and the fetched data and it
was not already added. -/
def changedStep (old data : RateTable) (acc : List String) (cur : String) :
    List String :=
  if lookupRate old cur ≠ lookupRate data cur ∧ cur ∉ acc then acc ++ [cur]
  else acc

/-- The changed set of the fetch handler (lines 468 to 482): a JS Set filled
in insertion order, keys of the old table first, then keys of the fetched
data, keeping each code whose value differs between the two tables. -/
def changedCodes (old data : RateTable) : List String :=
  (old.map Prod.fst ++ data.map Prod.fst).foldl (changedStep old data) []

/-- The table replacement of lines 486 to 489: the fetched data spread into a
fresh object with the pivot coin set to rate 1. -/
def withPivotRate (data : RateTable) (coin : String) : RateTable :=
  if (data.map Prod.fst).contains coin then
    data.map (fun kv => if kv.1 = coin then (kv.1, 1) else kv)
  else data ++ [(coin, 1)]

/-- The new cache and the emitted events produced by one completed fetch. -/
structure FetchResult where
  newRates : RateTable
  events : List RateEvent
deriving DecidableEq, Repr

/-- The done handler of fetchExchangeRates (lines 467 to 497): computes the
changed codes between the old cache and the fetched data, replaces the
cache with the data plus the pivot coin at rate 1, and, when anything
changed, emits one global exchange-rate-change event followed by one
per-code event carrying the previous value of that code. -/
def onExchangeRatesFetched (old data : RateTable) (coin : String) : FetchResult :=
  let changed := changedCodes old data
  let newRates := withPivotRate data coin
  let evs := if changed ≠ [] then
      RateEvent.exchangeRateChange changed ::
        changed.map (fun cur =>
          RateEvent.exchangeRateChangeFor cur (lookupRate old cur))
    else []
  ⟨newRates, evs⟩

/-- getExchangeRate of src/js/utils/currency.js (lines 508 to 516): fiat
codes are looked up as given, others after mainnet normalization; the
isFiatCur call rethrows for an unrecognized currency. -/
def getExchangeRate (rates : RateTable) (currency : String) :
    Except CurError JsNum :=
  if currency = "" then .error (.genericError "Please provide a currency.")
  else
    match isFiatCur currency with
    | .error e => .error e
    | .ok fiat =>
      .ok (lookupRate rates (if fiat then currency else ensureMainnetCode currency))

/-- An amount passed to convertCurrency: a JS number, or a numeric string
represented by its bignumber.js parse (none models a NaN parse). -/
inductive CCAmount where
  | num (x : JsNum)
  | str (x : Option ℚ)
deriving DecidableEq, Repr

/-- An amount convertCurrency accepts without throwing a validation error. -/
def validCC : CCAmount → Bool
  | .num (some _) => true
  | .str (some _) => true
  | _ => false

/-- Truthiness of exchangeRates[code] as tested on lines 564 and 569: the
rate is present and nonzero (a cached rate of exactly 0 is falsy). -/
def rateTruthy (rates : RateTable) (code : String) : Bool :=
  match lookupRate rates code with
  | some r => decide (r ≠ 0)
  | none => false

/-- The body of convertCurrency after amount validation (lines 557 to 586):
mainnet-normalize both uppercased codes, return the amount unchanged when
they agree, check both cached rates for truthiness, fetch both via
getExchangeRate, and divide then multiply, rebuilding the same
representation (string or number) the amount came in with. -/
def convertCurrencyBody (amount : CCAmount) (q : ℚ)
    (fromCur toCur : String) (rates : RateTable) : Except CurError CCAmount :=
  let fromCurCode := ensureMainnetCode (jsToUpper fromCur)
  let toCurCode := ensureMainnetCode (jsToUpper toCur)
  if fromCurCode = toCurCode then .ok amount
  else if ¬rateTruthy rates fromCurCode then .error .noExchangeRateData
  else if ¬rateTruthy rates toCurCode then .error .noExchangeRateData
  else
    match getExchangeRate rates fromCurCode with
    | .error e => .error e
    | .ok fromRate =>
      match getExchangeRate rates toCurCode with
      | .error e => .error e
      | .ok toRate =>
        match amount with
        | .str _ => .ok (.str (jsMul (jsDiv (some q) fromRate) toRate))
        | .num _ => .ok (.num (jsMul (jsDiv (some q) fromRate) toRate))

/-- convertCurrency of src/js/utils/currency.js (lines 529 to 587). -/
def convertCurrency (amount : CCAmount) (fromCur toCur : String)
    (rates : RateTable) : Except CurError CCAmount :=
  match amount with
  | .str none =>
    .error (.genericError "The string based number evaluates to NaN.")
  | .num none =>
    .error (.genericError "If providing an amount as a number, it cannot be NaN.")
  | .str (some q) => convertCurrencyBody amount q fromCur toCur rates
  | .num (some q) => convertCurrencyBody amount q fromCur toCur rates

/-- A JavaScript attribute value on a Price model: missing (undefined), a raw
string, a number (none models NaN), or a value of another type. -/
inductive PVal where
  | undef
  | str (s : String)
  | num (x : JsNum)
  | other
deriving DecidableEq, Repr

/-- JavaScript truthiness of a Price attribute value. -/
def pvalTruthy : PVal → Bool
  | .undef => false
  | .str s => decide (s ≠ "")
  | .num none => false
  | .num (some x) => decide (x ≠ 0)
  | .other => true

/-- is.number of the is_js library: a value of number type that is not NaN. -/
def isNumberPVal : PVal → Bool
  | .num (some _) => true
  | _ => false

/-- The attributes of a Price model (src/js/models/listing/Price.js). -/
structure PriceAttrs where
  amount : PVal
  currencyCode : PVal
deriving DecidableEq, Repr

namespace Price

/-- The errors added for the amount attribute by validate (lines 20 to 26):
empty string, then non-number, then not greater than 0, in that else-if
order, so at most one error is pushed. -/
def amountValidationErrors (amount : PVal) : List String :=
  if amount = .str "" then ["Please provide a price."]
  else if ¬isNumberPVal amount then
    ["Please provide the price amount as a number."]
  else match amount with
    | .num (some q) =>
      if q ≤ 0 then ["The price must be greater than 0."] else []
    | _ => []

/-- The errors added for the currencyCode attribute by validate (lines 28
to 30): one error when the code is falsy. -/
def currencyCodeValidationErrors (code : PVal) : List String :=
  if ¬pvalTruthy code then ["Please provide a currency code."] else []

/-- validate of src/js/models/listing/Price.js (lines 13 to 35): the error
object maps each failing field name to its list of error messages and is
returned when nonempty, else undefined (none). -/
def validate (attrs : PriceAttrs) : Option (List (String × List String)) :=
  let amountErrors := amountValidationErrors attrs.amount
  let curErrors := currencyCodeValidationErrors attrs.currencyCode
  let errObj :=
    (if amountErrors ≠ [] then [("amount", amountErrors)] else []) ++
      (if curErrors ≠ [] then [("currencyCode", curErrors)] else [])
  if errObj ≠ [] then some errObj else none

/-- convertPriceOut of src/js/models/listing/Price.js (lines 41 to 55): when
the amount is of number type, multiply by 10^9 for the exact code BTC and
by 10^2 for every other code, and Math.round the product. -/
def convertPriceOut (price : PriceAttrs) : PriceAttrs :=
  match price.amount with
  | .num x =>
    if price.currencyCode = .str "BTC" then
      ⟨.num (x.map (fun q => ((jsMathRound (q * 1000000000) : ℤ) : ℚ))),
        price.currencyCode⟩
    else
      ⟨.num (x.map (fun q => ((jsMathRound (q * 100) : ℤ) : ℚ))),
        price.currencyCode⟩
  | _ => price

end Price

/-! ## General lemmas about the embedded functions -/

theorem ensureMainnetCode_idem (c : String) :
    ensureMainnetCode (ensureMainnetCode c) = ensureMainnetCode c := by
  unfold ensureMainnetCode
  split_ifs <;> simp_all

theorem rateTruthy_eq_true_iff (rates : RateTable) (c : String) :
    rateTruthy rates c = true ↔ ∃ r, lookupRate rates c = some r ∧ r ≠ 0 := by
  unfold rateTruthy
  cases h : lookupRate rates c <;> simp

theorem convertCurrency_eq_body (amount : CCAmount) (q : ℚ)
    (fromCur toCur : String) (rates : RateTable)
    (h : amount = .num (some q) ∨ amount = .str (some q)) :
    convertCurrency amount fromCur toCur rates =
      convertCurrencyBody amount q fromCur toCur rates := by
  rcases h with h | h <;> subst h <;> rfl

theorem validCC_exists (amount : CCAmount) (hv : validCC amount = true) :
    ∃ q, amount = CCAmount.num (some q) ∨ amount = CCAmount.str (some q) := by
  cases amount with
  | num x => cases x with
    | none => simp [validCC] at hv
    | some q => exact ⟨q, Or.inl rfl⟩
  | str x => cases x with
    | none => simp [validCC] at hv
    | some q => exact ⟨q, Or.inr rfl⟩

theorem convertCurrencyBody_truthyness (amount : CCAmount) (q : ℚ)
    (fromCur toCur : String) (rates : RateTable)
    (hneq : ensureMainnetCode (jsToUpper fromCur) ≠ ensureMainnetCode (jsToUpper toCur)) :
    (∀ res, convertCurrencyBody amount q fromCur toCur rates = .ok res →
      rateTruthy rates (ensureMainnetCode (jsToUpper fromCur)) = true ∧
      rateTruthy rates (ensureMainnetCode (jsToUpper toCur)) = true) ∧
    (rateTruthy rates (ensureMainnetCode (jsToUpper fromCur)) = false ∨
      rateTruthy rates (ensureMainnetCode (jsToUpper toCur)) = false →
      convertCurrencyBody amount q fromCur toCur rates = .error .noExchangeRateData) := by
  unfold convertCurrencyBody
  rw [if_neg hneq]
  by_cases hf : rateTruthy rates (ensureMainnetCode (jsToUpper fromCur)) = true
  · by_cases ht : rateTruthy rates (ensureMainnetCode (jsToUpper toCur)) = true
    · refine ⟨fun res _ => ⟨hf, ht⟩, ?_⟩
      rintro (h | h) <;> simp_all
    · simp only [Bool.not_eq_true] at ht
      simp [hf, ht]
  · simp only [Bool.not_eq_true] at hf
    simp [hf]

/-! ## Claim theorems -/

/-- Claim C4: for every valid amount and any currency codes that agree after
mainnet normalization (in particular two occurrences of the same code, or
TBTC versus BTC), convertCurrency returns the input amount unchanged,
whatever the contents of the exchange rate cache. -/
theorem convertCurrency_identity (amount : CCAmount) (fromCur toCur : String)
    (rates : RateTable) (hv : validCC amount = true)
    (heq : ensureMainnetCode (jsToUpper fromCur) = ensureMainnetCode (jsToUpper toCur)) :
    convertCurrency amount fromCur toCur rates = .ok amount := by
  obtain ⟨q, hq⟩ := validCC_exists amount hv
  rw [convertCurrency_eq_body amount q fromCur toCur rates hq]
  unfold convertCurrencyBody
  rw [if_pos heq]

/-- Witness for C4: converting 5 from TBTC to BTC is the identity even with
a rate table holding a rate for BTC. -/
theorem convertCurrency_identity_witness :
    convertCurrency (.num (some 5)) "TBTC" "BTC" [("BTC", 3)] = .ok (.num (some 5)) :=
  convertCurrency_identity (.num (some 5)) "TBTC" "BTC" [("BTC", 3)] (by decide) (by decide)

/-- Claim C10: for distinct normalized codes and a valid amount, a successful
convertCurrency run implies both cached rates were present and nonzero, and
a cached rate of exactly 0 for either code yields NoExchangeRateDataError,
so the division by the from rate is never a division by zero. -/
theorem convertCurrency_nonzero_rates (amount : CCAmount) (fromCur toCur : String)
    (rates : RateTable) (hv : validCC amount = true)
    (hneq : ensureMainnetCode (jsToUpper fromCur) ≠ ensureMainnetCode (jsToUpper toCur)) :
    (∀ res, convertCurrency amount fromCur toCur rates = .ok res →
      (∃ rf, lookupRate rates (ensureMainnetCode (jsToUpper fromCur)) = some rf ∧ rf ≠ 0) ∧
      (∃ rt, lookupRate rates (ensureMainnetCode (jsToUpper toCur)) = some rt ∧ rt ≠ 0)) ∧
    (lookupRate rates (ensureMainnetCode (jsToUpper fromCur)) = some 0 →
      convertCurrency amount fromCur toCur rates = .error .noExchangeRateData) ∧
    (lookupRate rates (ensureMainnetCode (jsToUpper toCur)) = some 0 →
      convertCurrency amount fromCur toCur rates = .error .noExchangeRateData) := by
  obtain ⟨q, hq⟩ := validCC_exists amount hv
  rw [convertCurrency_eq_body amount q fromCur toCur rates hq]
  obtain ⟨hok, herr⟩ := convertCurrencyBody_truthyness amount q fromCur toCur rates hneq
  refine ⟨?_, ?_, ?_⟩
  · intro res h
    obtain ⟨hf, ht⟩ := hok res h
    exact ⟨(rateTruthy_eq_true_iff rates _).mp hf, (rateTruthy_eq_true_iff rates _).mp ht⟩
  · intro h0
    apply herr
    left
    simp [rateTruthy, h0]
  · intro h0
    apply herr
    right
    simp [rateTruthy, h0]

/-- Witness for C10: a successful conversion of 10 BTC to USD exhibits both
cached rates as present and nonzero. -/
theorem convertCurrency_nonzero_rates_witness :
    (∃ rf, lookupRate [("BTC", 1), ("USD", 50000)] (ensureMainnetCode (jsToUpper "BTC")) = some rf ∧ rf ≠ 0) ∧
    (∃ rt, lookupRate [("BTC", 1), ("USD", 50000)] (ensureMainnetCode (jsToUpper "USD")) = some rt ∧ rt ≠ 0) :=
  (convertCurrency_nonzero_rates (.num (some 10)) "BTC" "USD" [("BTC", 1), ("USD", 50000)]
    (by decide) (by decide)).1 (.num (some 500000)) (by
      have hgf : getExchangeRate [("BTC", (1:ℚ)), ("USD", 50000)] "BTC" = .ok (some 1) := by decide
      have hgt : getExchangeRate [("BTC", (1:ℚ)), ("USD", 50000)] "USD" = .ok (some 50000) := by decide
      have hBTC : jsToUpper "BTC" = "BTC" := by decide
      have hUSD : jsToUpper "USD" = "USD" := by decide
      simp +decide [convertCurrency, convertCurrencyBody, hBTC, hUSD,
        ensureMainnetCode, rateTruthy, lookupRate, alookup, hgf, hgt, jsDiv, jsMul]
      norm_num)

/-- Claim C6: whenever integerToDecimal hits a validation failure (value not
a number or string, invalid divisibility) or a NaN value, the default
options swallow the error and return undefined (ok none), while
returnUndefinedOnError set to false re-raises it; on good inputs both modes
return the quotient value / 10^divisibility. -/
theorem integerToDecimal_error_policy (value : JSVal) (d : ℚ) :
    (value = .other ∨ (isValidCoinDivisibility d).1 = false ∨ bigNumberOf value = none →
      integerToDecimal value d true = .ok none ∧
      ∃ e, integerToDecimal value d false = .error e) ∧
    (value ≠ .other → (isValidCoinDivisibility d).1 = true →
      ∀ q, bigNumberOf value = some q →
        integerToDecimal value d true = .ok (some (q / 10 ^ d.num.toNat)) ∧
        integerToDecimal value d false = .ok (some (q / 10 ^ d.num.toNat))) := by
  constructor
  · intro h
    have hcore : ∃ e, integerToDecimalCore value d = .error e := by
      unfold integerToDecimalCore
      rcases h with h | h | h
      · simp [h]
      · by_cases ho : value = .other
        · simp [ho]
        · simp only [ho, if_false]
          simp [h]
      · by_cases ho : value = .other
        · simp [ho]
        · by_cases hv : (isValidCoinDivisibility d).1 = true
          · simp [ho, hv, h]
          · simp only [Bool.not_eq_true] at hv
            simp [ho, hv]
    obtain ⟨e, he⟩ := hcore
    unfold integerToDecimal
    rw [he]
    exact ⟨rfl, e, rfl⟩
  · intro ho hv q hq
    have hcore : integerToDecimalCore value d = .ok (q / 10 ^ d.num.toNat) := by
      unfold integerToDecimalCore
      simp [ho, hv, hq]
    unfold integerToDecimal
    rw [hcore]
    exact ⟨rfl, rfl⟩

/-- Witness for C6: a value that is neither a number nor a string yields
undefined by default and an error when configured to raise. -/
theorem integerToDecimal_error_policy_witness :
    integerToDecimal .other 8 true = .ok none ∧
    ∃ e, integerToDecimal .other 8 false = .error e :=
  (integerToDecimal_error_policy .other 8).1 (Or.inl rfl)

/-- Claim C9: convertPriceOut on a numeric amount multiplies by 10^9 and
rounds when the code is exactly the string BTC, and multiplies by 10^2 and
rounds for every other code; in particular 1 BTC becomes 1000000000 and
1 USD becomes 100. -/
theorem convertPriceOut_spec (q : ℚ) (code : PVal) :
    (code = .str "BTC" →
      Price.convertPriceOut ⟨.num (some q), code⟩ =
        ⟨.num (some ((jsMathRound (q * 1000000000) : ℤ) : ℚ)), code⟩) ∧
    (code ≠ .str "BTC" →
      Price.convertPriceOut ⟨.num (some q), code⟩ =
        ⟨.num (some ((jsMathRound (q * 100) : ℤ) : ℚ)), code⟩) ∧
    Price.convertPriceOut ⟨.num (some 1), .str "BTC"⟩ = ⟨.num (some 1000000000), .str "BTC"⟩ ∧
    Price.convertPriceOut ⟨.num (some 1), .str "USD"⟩ = ⟨.num (some 100), .str "USD"⟩ := by
  refine ⟨?_, ?_, ?_, ?_⟩
  · intro h
    simp [Price.convertPriceOut, h]
  · intro h
    simp [Price.convertPriceOut, h]
  · simp [Price.convertPriceOut, jsMathRound]
    norm_num [Int.floor_eq_iff]
  · simp +decide [Price.convertPriceOut, jsMathRound]
    norm_num [Int.floor_eq_iff]

/-- Witness for C9: the BTC branch applied at amount 2. -/
theorem convertPriceOut_spec_witness :
    Price.convertPriceOut ⟨.num (some 2), .str "BTC"⟩ =
      ⟨.num (some ((jsMathRound ((2:ℚ) * 1000000000) : ℤ) : ℚ)), .str "BTC"⟩ :=
  (convertPriceOut_spec 2 (.str "BTC")).1 rfl

theorem amountValidationErrors_eq_nil_iff (a : PVal) :
    Price.amountValidationErrors a = [] ↔ ∃ q, a = .num (some q) ∧ 0 < q := by
  cases a with
  | num x =>
    cases x with
    | none => simp [Price.amountValidationErrors, isNumberPVal]
    | some q =>
      by_cases hq : q ≤ 0
      · simp [Price.amountValidationErrors, isNumberPVal, hq]
      · simp [Price.amountValidationErrors, isNumberPVal, hq]
        push_neg at hq
        exact hq
  | undef => simp [Price.amountValidationErrors, isNumberPVal]
  | str s =>
    by_cases hs : s = ""
    · subst hs; simp [Price.amountValidationErrors]
    · simp [Price.amountValidationErrors, isNumberPVal, hs]
  | other => simp [Price.amountValidationErrors, isNumberPVal]

theorem currencyCodeValidationErrors_eq_nil_iff (c : PVal) :
    Price.currencyCodeValidationErrors c = [] ↔ pvalTruthy c = true := by
  by_cases hc : pvalTruthy c = true <;>
    simp_all [Price.currencyCodeValidationErrors]

theorem validate_cases (a c : PVal) : Price.validate ⟨a, c⟩ =
    if Price.amountValidationErrors a = [] then
      (if Price.currencyCodeValidationErrors c = [] then none
        else some [("currencyCode", Price.currencyCodeValidationErrors c)])
    else if Price.currencyCodeValidationErrors c = [] then
      some [("amount", Price.amountValidationErrors a)]
    else
      some [("amount", Price.amountValidationErrors a),
        ("currencyCode", Price.currencyCodeValidationErrors c)] := by
  by_cases ha : Price.amountValidationErrors a = [] <;>
    by_cases hc : Price.currencyCodeValidationErrors c = [] <;>
      simp [Price.validate, ha, hc]

/-- Claim C8: Price.validate returns an error object keyed by field name
whenever the amount is missing, non-numeric or not greater than 0 (key
amount) or the currencyCode is falsy (key currencyCode), and returns
undefined exactly when the attributes are valid; in particular amount 0
with USD yields an amount error and amount 5 with USD yields none. -/
theorem validate_spec (attrs : PriceAttrs) :
    (Price.validate attrs = none ↔
      ((∃ q, attrs.amount = .num (some q) ∧ 0 < q) ∧
        pvalTruthy attrs.currencyCode = true)) ∧
    ((¬∃ q, attrs.amount = .num (some q) ∧ 0 < q) →
      ∃ l errs, Price.validate attrs = some l ∧
        alookup l "amount" = some errs ∧ errs ≠ []) ∧
    (pvalTruthy attrs.currencyCode = false →
      ∃ l errs, Price.validate attrs = some l ∧
        alookup l "currencyCode" = some errs ∧ errs ≠ []) ∧
    (∃ l, Price.validate ⟨.num (some 0), .str "USD"⟩ = some l ∧
      (alookup l "amount").isSome = true) ∧
    Price.validate ⟨.num (some 5), .str "USD"⟩ = none := by
  obtain ⟨a, c⟩ := attrs
  have hA := amountValidationErrors_eq_nil_iff a
  have hC := currencyCodeValidationErrors_eq_nil_iff c
  have hE := validate_cases a c
  refine ⟨?_, ?_, ?_, ?_, ?_⟩
  · by_cases ha : Price.amountValidationErrors a = []
    · by_cases hc : Price.currencyCodeValidationErrors c = []
      · rw [hE, if_pos ha, if_pos hc]
        exact iff_of_true rfl ⟨hA.mp ha, hC.mp hc⟩
      · rw [hE, if_pos ha, if_neg hc]
        exact iff_of_false (by simp) (fun h => hc (hC.mpr h.2))
    · rw [hE, if_neg ha]
      by_cases hc : Price.currencyCodeValidationErrors c = [] <;>
        [rw [if_pos hc]; rw [if_neg hc]] <;>
        exact iff_of_false (by simp) (fun h => ha (hA.mpr h.1))
  · intro hbad
    have ha : Price.amountValidationErrors a ≠ [] := fun h => hbad (hA.mp h)
    by_cases hc : Price.currencyCodeValidationErrors c = []
    · refine ⟨[("amount", Price.amountValidationErrors a)],
        Price.amountValidationErrors a, ?_, by simp [alookup], ha⟩
      rw [hE, if_neg ha, if_pos hc]
    · refine ⟨[("amount", Price.amountValidationErrors a),
        ("currencyCode", Price.currencyCodeValidationErrors c)],
        Price.amountValidationErrors a, ?_, by simp [alookup], ha⟩
      rw [hE, if_neg ha, if_neg hc]
  · intro hcf
    have hc : Price.currencyCodeValidationErrors c ≠ [] := by
      intro h
      rw [hC.mp h] at hcf
      cases hcf
    by_cases ha : Price.amountValidationErrors a = []
    · refine ⟨[("currencyCode", Price.currencyCodeValidationErrors c)],
        Price.currencyCodeValidationErrors c, ?_, by simp [alookup], hc⟩
      rw [hE, if_pos ha, if_neg hc]
    · refine ⟨[("amount", Price.amountValidationErrors a),
        ("currencyCode", Price.currencyCodeValidationErrors c)],
        Price.currencyCodeValidationErrors c, ?_, ?_, hc⟩
      · rw [hE, if_neg ha, if_neg hc]
      · simp +decide [alookup]
  · refine ⟨[("amount", ["The price must be greater than 0."])], ?_, by simp [alookup]⟩
    simp +decide [Price.validate, Price.amountValidationErrors,
      Price.currencyCodeValidationErrors, isNumberPVal, pvalTruthy]
  · simp +decide [Price.validate, Price.amountValidationErrors,
      Price.currencyCodeValidationErrors, isNumberPVal, pvalTruthy]

/-- Witness for C8: a missing amount yields an error object keyed amount. -/
theorem validate_spec_witness :
    ∃ l errs, Price.validate ⟨.undef, .str "USD"⟩ = some l ∧
      alookup l "amount" = some errs ∧ errs ≠ [] :=
  (validate_spec ⟨.undef, .str "USD"⟩).2.1 (by rintro ⟨q, h, -⟩; cases h)

theorem floor_intCast_add_half (z : ℤ) : ⌊(z : ℚ) + 1 / 2⌋ = z := by
  rw [add_comm, Int.floor_add_int]
  norm_num

theorem rat_den_one_eq_num (x : ℚ) (h : x.den = 1) : ((x.num : ℚ)) = x := by
  conv_rhs => rw [← Rat.num_div_den x]
  rw [h]
  simp

/-- Claim C1: for every positive amount and valid divisibility d, converting
with decimalToInteger and back with integerToDecimal returns the amount up
to the precision of d decimal places (within half a base unit), and exactly
when the amount has at most d decimal digits (amount times 10^d is an
integer). -/
theorem decimalToInteger_roundTrip (q d : ℚ) (hq : 0 < q)
    (hd : (isValidCoinDivisibility d).1 = true) :
    ∃ n r, decimalToInteger (.num (some q)) d = .ok (some n) ∧
      integerToDecimal (.str (some (n : ℚ))) d true = .ok (some r) ∧
      |r - q| ≤ 1 / (2 * 10 ^ d.num.toNat) ∧
      ((q * 10 ^ d.num.toNat).den = 1 → r = q) := by
  have hpow : (0:ℚ) < 10 ^ d.num.toNat := by positivity
  have hx : (0:ℚ) ≤ q * 10 ^ d.num.toNat := le_of_lt (mul_pos hq hpow)
  have hn : decimalToInteger (.num (some q)) d =
      .ok (some (bnRoundHalfUp (q * 10 ^ d.num.toNat))) := by
    unfold decimalToInteger
    simp [hd, bigNumberOf]
  have hround : bnRoundHalfUp (q * 10 ^ d.num.toNat) =
      ⌊q * 10 ^ d.num.toNat + 1 / 2⌋ := by
    unfold bnRoundHalfUp
    rw [if_pos hx]
  have hr : integerToDecimal
      (.str (some ((⌊q * 10 ^ d.num.toNat + 1 / 2⌋ : ℤ) : ℚ))) d true =
      .ok (some ((⌊q * 10 ^ d.num.toNat + 1 / 2⌋ : ℚ) / 10 ^ d.num.toNat)) := by
    unfold integerToDecimal integerToDecimalCore
    simp [hd, bigNumberOf]
  refine ⟨⌊q * 10 ^ d.num.toNat + 1 / 2⌋,
    (⌊q * 10 ^ d.num.toNat + 1 / 2⌋ : ℚ) / 10 ^ d.num.toNat, ?_, hr, ?_, ?_⟩
  · rw [hn, hround]
  · have h1 : ((⌊q * 10 ^ d.num.toNat + 1 / 2⌋ : ℤ) : ℚ) ≤
        q * 10 ^ d.num.toNat + 1 / 2 := Int.floor_le _
    have h2 : q * 10 ^ d.num.toNat + 1 / 2 - 1 <
        ((⌊q * 10 ^ d.num.toNat + 1 / 2⌋ : ℤ) : ℚ) := Int.sub_one_lt_floor _
    have habs : |((⌊q * 10 ^ d.num.toNat + 1 / 2⌋ : ℤ) : ℚ) - q * 10 ^ d.num.toNat| ≤ 1 / 2 := by
      rw [abs_le]
      constructor <;> linarith
    have h3 : ((⌊q * 10 ^ d.num.toNat + 1 / 2⌋ : ℤ) : ℚ) / 10 ^ d.num.toNat - q =
        (((⌊q * 10 ^ d.num.toNat + 1 / 2⌋ : ℤ) : ℚ) - q * 10 ^ d.num.toNat) / 10 ^ d.num.toNat := by
      field_simp
      ring
    have h4 : (1:ℚ) / (2 * 10 ^ d.num.toNat) = (1 / 2) / 10 ^ d.num.toNat := by
      ring
    rw [h3, abs_div, abs_of_pos hpow, h4]
    exact (div_le_div_iff_of_pos_right hpow).mpr habs
  · intro hden
    have hint : ((q * 10 ^ d.num.toNat).num : ℚ) = q * 10 ^ d.num.toNat :=
      rat_den_one_eq_num _ hden
    rw [← hint, floor_intCast_add_half, hint]
    field_simp

/-- Witness for C1: the round trip at amount 1 with divisibility 8 is exact. -/
theorem decimalToInteger_roundTrip_witness :
    ∃ n r, decimalToInteger (.num (some 1)) 8 = .ok (some n) ∧
      integerToDecimal (.str (some (n : ℚ))) 8 true = .ok (some r) ∧
      |r - 1| ≤ 1 / (2 * 10 ^ (8:ℚ).num.toNat) ∧
      (((1:ℚ) * 10 ^ (8:ℚ).num.toNat).den = 1 → r = 1) :=
  decimalToInteger_roundTrip 1 8 (by norm_num) (by decide)


theorem getMaxDisplayDigitsLoop_props (amount : ℚ) :
    ∀ fuel m, MAX_NUMBER_FORMAT_DISPLAY_DECIMALS - m = fuel →
      m ≤ getMaxDisplayDigitsLoop amount m ∧
      (m ≤ 20 → getMaxDisplayDigitsLoop amount m ≤ 20) ∧
      (isFormattedResultZero amount (getMaxDisplayDigitsLoop amount m) = false ∨
        20 ≤ getMaxDisplayDigitsLoop amount m) ∧
      (∀ k, m ≤ k → k < getMaxDisplayDigitsLoop amount m →
        isFormattedResultZero amount k = true) := by
  intro fuel
  induction fuel with
  | zero =>
    intro m hm
    have h20 : MAX_NUMBER_FORMAT_DISPLAY_DECIMALS ≤ m := by omega
    rw [getMaxDisplayDigitsLoop]
    have hcond : ¬(isFormattedResultZero amount m = true ∧
        m < MAX_NUMBER_FORMAT_DISPLAY_DECIMALS) := by
      rintro ⟨-, hlt⟩
      omega
    rw [dif_neg hcond]
    refine ⟨le_refl m, fun h => ?_, Or.inr ?_, fun k hk hk2 => absurd hk2 (by omega)⟩
    · unfold MAX_NUMBER_FORMAT_DISPLAY_DECIMALS at h20
      omega
    · unfold MAX_NUMBER_FORMAT_DISPLAY_DECIMALS at h20
      omega
  | succ f ih =>
    intro m hm
    rw [getMaxDisplayDigitsLoop]
    by_cases hcond : isFormattedResultZero amount m = true ∧
        m < MAX_NUMBER_FORMAT_DISPLAY_DECIMALS
    · rw [dif_pos hcond]
      obtain ⟨hz, hlt⟩ := hcond
      have hrec := ih (m + 1) (by omega)
      obtain ⟨r1, r2, r3, r4⟩ := hrec
      refine ⟨by omega, fun h => r2 (by unfold MAX_NUMBER_FORMAT_DISPLAY_DECIMALS at hlt; omega), r3, ?_⟩
      intro k hk hk2
      rcases Nat.eq_or_lt_of_le hk with hk | hk
      · rw [← hk]
        exact hz
      · exact r4 k hk hk2
    · rw [dif_neg hcond]
      rw [Classical.not_and_iff_or_not_not] at hcond
      refine ⟨le_refl m, fun h => h, ?_, fun k hk hk2 => absurd hk2 (by omega)⟩
      rcases hcond with hc | hc
      · left
        simpa using hc
      · right
        omega

example : isFormattedResultZero (1/10^8 : ℚ) 2 = true := by
  simp only [isFormattedResultZero, preciseRound, jsMathRound]
  norm_num

example : isFormattedResultZero (1/10^8 : ℚ) 8 = false := by
  simp only [isFormattedResultZero, preciseRound, jsMathRound]
  norm_num

example : isFormattedResultZero (-(1/10^8) : ℚ) 2 = true := by
  simp only [isFormattedResultZero, preciseRound, jsMathRound]
  norm_num

theorem formatCurrencyMaxDecimals_eq_loop (amount : ℚ) (currency : String)
    (m0 : ℕ) (app : Option WalletCurDef) (hpos : 0 < amount)
    (h1 : 1 ≤ m0) (h20 : m0 ≤ 20) :
    formatCurrencyMaxDecimals amount currency (some m0) true app =
      getMaxDisplayDigitsLoop amount m0 := by
  obtain ⟨r1, r2, r3, r4⟩ :=
    getMaxDisplayDigitsLoop_props amount (MAX_NUMBER_FORMAT_DISPLAY_DECIMALS - m0) m0 rfl
  have hle := r2 h20
  have hm0 : m0 ≠ 0 := by omega
  have hgmd : getMaxDisplayDigits amount m0 = getMaxDisplayDigitsLoop amount m0 := by
    unfold getMaxDisplayDigits
    rw [if_neg (ne_of_gt hpos), if_neg hm0]
  unfold formatCurrencyMaxDecimals
  show (if MAX_NUMBER_FORMAT_DISPLAY_DECIMALS <
      (if 0 < amount ∧ true = true then getMaxDisplayDigits amount m0 else m0) then
    MAX_NUMBER_FORMAT_DISPLAY_DECIMALS
    else (if 0 < amount ∧ true = true then getMaxDisplayDigits amount m0 else m0)) =
    getMaxDisplayDigitsLoop amount m0
  rw [if_pos (show 0 < amount ∧ true = true from ⟨hpos, rfl⟩), hgmd,
    if_neg (show ¬(MAX_NUMBER_FORMAT_DISPLAY_DECIMALS < getMaxDisplayDigitsLoop amount m0) from by
      unfold MAX_NUMBER_FORMAT_DISPLAY_DECIMALS
      omega)]

/-- Claim C3 (amended): for every positive amount, when the selection of
display decimals runs with extendMaxDecimalsOnZero true and a desired
maximum between 1 and 20, the maximum is raised one step at a time exactly
until the rounded display is nonzero or the ceiling of 20 is reached; in
particular an amount of 0.00000001 in BTC with maxDisplayDecimals 2 does
not display as zero. -/
theorem formatCurrency_extendMaxDecimals (amount : ℚ) (currency : String)
    (m0 : ℕ) (app : Option WalletCurDef) (hpos : 0 < amount)
    (h1 : 1 ≤ m0) (h20 : m0 ≤ 20) :
    m0 ≤ formatCurrencyMaxDecimals amount currency (some m0) true app ∧
    formatCurrencyMaxDecimals amount currency (some m0) true app ≤ 20 ∧
    (isFormattedResultZero amount
        (formatCurrencyMaxDecimals amount currency (some m0) true app) = false ∨
      formatCurrencyMaxDecimals amount currency (some m0) true app = 20) ∧
    (∀ k, m0 ≤ k →
      k < formatCurrencyMaxDecimals amount currency (some m0) true app →
      isFormattedResultZero amount k = true) ∧
    isFormattedResultZero (1 / 10 ^ 8)
      (formatCurrencyMaxDecimals (1 / 10 ^ 8) "BTC" (some 2) true none) = false := by
  obtain ⟨r1, r2, r3, r4⟩ :=
    getMaxDisplayDigitsLoop_props amount (MAX_NUMBER_FORMAT_DISPLAY_DECIMALS - m0) m0 rfl
  rw [formatCurrencyMaxDecimals_eq_loop amount currency m0 app hpos h1 h20]
  have hloop8 : getMaxDisplayDigitsLoop (1 / 10 ^ 8 : ℚ) 2 = 8 := by
    have s2 : isFormattedResultZero (1/10^8 : ℚ) 2 = true := by
      simp only [isFormattedResultZero, preciseRound, jsMathRound]; norm_num
    have s3 : isFormattedResultZero (1/10^8 : ℚ) 3 = true := by
      simp only [isFormattedResultZero, preciseRound, jsMathRound]; norm_num
    have s4 : isFormattedResultZero (1/10^8 : ℚ) 4 = true := by
      simp only [isFormattedResultZero, preciseRound, jsMathRound]; norm_num
    have s5 : isFormattedResultZero (1/10^8 : ℚ) 5 = true := by
      simp only [isFormattedResultZero, preciseRound, jsMathRound]; norm_num
    have s6 : isFormattedResultZero (1/10^8 : ℚ) 6 = true := by
      simp only [isFormattedResultZero, preciseRound, jsMathRound]; norm_num
    have s7 : isFormattedResultZero (1/10^8 : ℚ) 7 = true := by
      simp only [isFormattedResultZero, preciseRound, jsMathRound]; norm_num
    have s8 : isFormattedResultZero (1/10^8 : ℚ) 8 = false := by
      simp only [isFormattedResultZero, preciseRound, jsMathRound]; norm_num
    rw [getMaxDisplayDigitsLoop, dif_pos ⟨s2, by norm_num [MAX_NUMBER_FORMAT_DISPLAY_DECIMALS]⟩]
    rw [getMaxDisplayDigitsLoop, dif_pos ⟨s3, by norm_num [MAX_NUMBER_FORMAT_DISPLAY_DECIMALS]⟩]
    rw [getMaxDisplayDigitsLoop, dif_pos ⟨s4, by norm_num [MAX_NUMBER_FORMAT_DISPLAY_DECIMALS]⟩]
    rw [getMaxDisplayDigitsLoop, dif_pos ⟨s5, by norm_num [MAX_NUMBER_FORMAT_DISPLAY_DECIMALS]⟩]
    rw [getMaxDisplayDigitsLoop, dif_pos ⟨s6, by norm_num [MAX_NUMBER_FORMAT_DISPLAY_DECIMALS]⟩]
    rw [getMaxDisplayDigitsLoop, dif_pos ⟨s7, by norm_num [MAX_NUMBER_FORMAT_DISPLAY_DECIMALS]⟩]
    rw [getMaxDisplayDigitsLoop, dif_neg (by rw [s8]; simp)]
  refine ⟨r1, r2 h20, ?_, r4, ?_⟩
  · rcases r3 with h | h
    · exact Or.inl h
    · right
      have := r2 h20
      omega
  · rw [formatCurrencyMaxDecimals_eq_loop (1/10^8 : ℚ) "BTC" 2 none (by norm_num)
      (by norm_num) (by norm_num), hloop8]
    simp only [isFormattedResultZero, preciseRound, jsMathRound]
    norm_num

/-- Counterexample to claim C3 as stated: for the nonzero (negative) amount
-0.00000001 with maxDisplayDecimals 2 and extendMaxDecimalsOnZero true, the
chosen maximum would make the rounded display zero, yet formatCurrency
leaves the maximum at 2 and the display stays zero, because the source
guards the extension with amount greater than 0, not amount nonzero. -/
theorem formatCurrency_negative_not_extended :
    formatCurrencyMaxDecimals (-(1 / 10 ^ 8)) "BTC" (some 2) true none = 2 ∧
    isFormattedResultZero (-(1 / 10 ^ 8)) 2 = true ∧
    (-(1 / 10 ^ 8) : ℚ) ≠ 0 ∧
    isFormattedResultZero (-(1 / 10 ^ 8))
      (formatCurrencyMaxDecimals (-(1 / 10 ^ 8)) "BTC" (some 2) true none) = true := by
  have hneg : ¬((0:ℚ) < -(1 / 10 ^ 8)) := by norm_num
  have hm : formatCurrencyMaxDecimals (-(1 / 10 ^ 8)) "BTC" (some 2) true none = 2 := by
    unfold formatCurrencyMaxDecimals
    show (if MAX_NUMBER_FORMAT_DISPLAY_DECIMALS <
        (if (0:ℚ) < -(1 / 10 ^ 8) ∧ true = true then getMaxDisplayDigits (-(1 / 10 ^ 8)) 2 else 2) then
      MAX_NUMBER_FORMAT_DISPLAY_DECIMALS
      else (if (0:ℚ) < -(1 / 10 ^ 8) ∧ true = true then getMaxDisplayDigits (-(1 / 10 ^ 8)) 2 else 2)) = 2
    rw [if_neg (show ¬((0:ℚ) < -(1 / 10 ^ 8) ∧ true = true) from fun hc => hneg hc.1),
      if_neg (show ¬(MAX_NUMBER_FORMAT_DISPLAY_DECIMALS < 2) from by
        unfold MAX_NUMBER_FORMAT_DISPLAY_DECIMALS
        omega)]
  have hz : isFormattedResultZero (-(1 / 10 ^ 8)) 2 = true := by
    simp only [isFormattedResultZero, preciseRound, jsMathRound]
    norm_num
  exact ⟨hm, hz, by norm_num, by rw [hm]; exact hz⟩

/-- Witness for the amended C3: the concrete BTC case of the theorem. -/
theorem formatCurrency_extendMaxDecimals_witness :
    isFormattedResultZero (1 / 10 ^ 8)
      (formatCurrencyMaxDecimals (1 / 10 ^ 8) "BTC" (some 2) true none) = false :=
  (formatCurrency_extendMaxDecimals (1 / 10 ^ 8) "BTC" 2 none (by norm_num)
    (by norm_num) (by norm_num)).2.2.2.2


/-- Counterexample to claim C2 as stated: with a per-call wallet currency
definition that does not contain the code, the process-wide definition is
never consulted; getCoinDivisibility falls straight to the registry
resolution (fiat USD gives 2), while the resolution order of the claim,
read as a fallback chain, would return the process-wide entry 7. -/
theorem getCoinDivisibility_percall_shadows :
    getCoinDivisibility "USD" (some [("ETH", 5)]) (some [("USD", 7)]) = .ok 2 ∧
    getCoinDivisibilitySpecOrder "USD" (some [("ETH", 5)]) (some [("USD", 7)]) = .ok 7 ∧
    (Except.ok (2:ℕ) : Except CurError ℕ) ≠ .ok 7 := by
  refine ⟨by decide, by decide, by decide⟩

theorem getCoinDivisibility_def_cases (currency : String)
    (opt app : Option WalletCurDef) (wcd : WalletCurDef)
    (hdef : opt = some wcd ∨ (opt = none ∧ app = some wcd)) :
    getCoinDivisibility currency opt app =
      getCoinDivisibility currency (some wcd) none := by
  rcases hdef with h | ⟨h1, h2⟩
  · subst h
    rfl
  · subst h1
    subst h2
    rfl

/-- Claim C2 (amended): getCoinDivisibility resolves through the effective
wallet currency definition, where a per-call definition, when provided,
replaces (rather than chains before) the process-wide one; if the effective
definition contains the code its divisibility is returned, and otherwise
resolution falls to fiat (2), then a recognized wallet currency (its
declared divisibility), then a recognized crypto listing currency (8), and
throws UnrecognizedCurrencyError when no registry matches; absent any
override USD gives 2 and BTC gives 8. -/
theorem getCoinDivisibility_resolution (currency : String)
    (opt app : Option WalletCurDef) (wcd : WalletCurDef)
    (hcur : currency ≠ "")
    (hdef : opt = some wcd ∨ (opt = none ∧ app = some wcd)) :
    (∀ dv, alookup wcd currency = some dv →
      getCoinDivisibility currency opt app = .ok dv) ∧
    (alookup wcd currency = none →
      ((jsToUpper currency ∈ fiatCurrencyCodes →
        getCoinDivisibility currency opt app = .ok 2) ∧
      (jsToUpper currency ∉ fiatCurrencyCodes →
        ∀ dv, alookup walletCurrencies (jsToUpper currency) = some dv →
          getCoinDivisibility currency opt app = .ok dv) ∧
      (jsToUpper currency ∉ fiatCurrencyCodes →
        alookup walletCurrencies (jsToUpper currency) = none →
        jsToUpper currency ∈ cryptoListingCurrencyCodes →
          getCoinDivisibility currency opt app = .ok defaultCryptoCoinDivisibility) ∧
      (jsToUpper currency ∉ fiatCurrencyCodes →
        alookup walletCurrencies (jsToUpper currency) = none →
        jsToUpper currency ∉ cryptoListingCurrencyCodes →
          getCoinDivisibility currency opt app = .error .unrecognizedCurrency))) ∧
    getCoinDivisibility "USD" none (some []) = .ok 2 ∧
    getCoinDivisibility "BTC" none (some []) = .ok 8 ∧
    getCoinDivisibility "ZZZ" none (some []) = .error .unrecognizedCurrency := by
  have heff := getCoinDivisibility_def_cases currency opt app wcd hdef
  refine ⟨?_, ?_, by decide, by decide, by decide⟩
  · intro dv hdv
    rw [heff]
    unfold getCoinDivisibility
    rw [if_neg hcur]
    simp [hdv]
  · intro hnone
    refine ⟨?_, ?_, ?_, ?_⟩
    · intro hf
      rw [heff]
      unfold getCoinDivisibility
      rw [if_neg hcur]
      simp [hnone, getCurMeta, hcur, getCurrencyByCode, hf]
    · intro hf dv hw
      rw [heff]
      unfold getCoinDivisibility
      rw [if_neg hcur]
      simp [hnone, getCurMeta, hcur, getCurrencyByCode, getWalletCurByCode, hf, hw]
    · intro hf hw hcl
      rw [heff]
      unfold getCoinDivisibility
      rw [if_neg hcur]
      simp [hnone, getCurMeta, hcur, getCurrencyByCode, getWalletCurByCode, hf, hw, hcl]
    · intro hf hw hcl
      rw [heff]
      unfold getCoinDivisibility
      rw [if_neg hcur]
      simp [hnone, getCurMeta, hcur, getCurrencyByCode, getWalletCurByCode, hf, hw, hcl]

/-- Witness for the amended C2: a per-call definition containing the code
wins over everything else. -/
theorem getCoinDivisibility_resolution_witness :
    getCoinDivisibility "BTC" (some [("BTC", 9)]) none = .ok 9 :=
  (getCoinDivisibility_resolution "BTC" (some [("BTC", 9)]) none [("BTC", 9)]
    (by decide) (Or.inl rfl)).1 9 (by decide)


/-- Counterexample to claim C5 as stated: with both rates present in the
cache but the from rate cached as exactly 0, convertCurrency throws
NoExchangeRateDataError instead of returning amount / rate(from) * rate(to),
because the source tests the cached rates for JavaScript truthiness, under
which 0 counts the same as absent. -/
theorem convertCurrency_zero_rate_counterexample :
    lookupRate [("USD", 0), ("BTC", 1)] "USD" = some 0 ∧
    lookupRate [("USD", 0), ("BTC", 1)] "BTC" = some 1 ∧
    ensureMainnetCode (jsToUpper "USD") ≠ ensureMainnetCode (jsToUpper "BTC") ∧
    convertCurrency (.num (some 1)) "USD" "BTC" [("USD", 0), ("BTC", 1)] =
      .error .noExchangeRateData := by
  refine ⟨by decide, by decide, by decide, by decide⟩

theorem getExchangeRate_of_normalized (rates : RateTable) (cur : String) (m : CurMeta)
    (r : ℚ) (hidem : ensureMainnetCode cur = cur)
    (hm : getCurMeta cur = .ok m) (hr : lookupRate rates cur = some r) :
    getExchangeRate rates cur = .ok (some r) := by
  have hne : cur ≠ "" := by
    intro h
    rw [h] at hm
    unfold getCurMeta at hm
    simp at hm
  unfold getExchangeRate
  rw [if_neg hne]
  unfold isFiatCur
  rw [hm]
  simp only [Except.map]
  cases hfi : m.isFiat <;> simp [hfi, hidem, hr]

/-- Claim C5 (amended): for a valid amount and codes distinct after mainnet
normalization, convertCurrency throws NoExchangeRateDataError if either
cached rate is absent or cached as 0 (both are falsy), and otherwise, when
both codes are recognized currencies (so that the rate lookup path through
the currency metadata does not itself throw), returns
amount / rate(from) * rate(to) in the representation the amount came in
with. -/
theorem convertCurrency_rate_data (amount : CCAmount) (q : ℚ)
    (fromCur toCur : String) (rates : RateTable)
    (hamt : amount = .num (some q) ∨ amount = .str (some q))
    (hneq : ensureMainnetCode (jsToUpper fromCur) ≠ ensureMainnetCode (jsToUpper toCur)) :
    (rateTruthy rates (ensureMainnetCode (jsToUpper fromCur)) = false ∨
      rateTruthy rates (ensureMainnetCode (jsToUpper toCur)) = false →
      convertCurrency amount fromCur toCur rates = .error .noExchangeRateData) ∧
    (∀ rf rt mf mt,
      lookupRate rates (ensureMainnetCode (jsToUpper fromCur)) = some rf → rf ≠ 0 →
      lookupRate rates (ensureMainnetCode (jsToUpper toCur)) = some rt → rt ≠ 0 →
      getCurMeta (ensureMainnetCode (jsToUpper fromCur)) = .ok mf →
      getCurMeta (ensureMainnetCode (jsToUpper toCur)) = .ok mt →
      convertCurrency amount fromCur toCur rates =
        .ok (match amount with
          | .str _ => .str (some (q / rf * rt))
          | .num _ => .num (some (q / rf * rt)))) := by
  constructor
  · intro h
    rw [convertCurrency_eq_body amount q fromCur toCur rates hamt]
    exact (convertCurrencyBody_truthyness amount q fromCur toCur rates hneq).2 h
  · intro rf rt mf mt hrf hrf0 hrt hrt0 hmf hmt
    rw [convertCurrency_eq_body amount q fromCur toCur rates hamt]
    unfold convertCurrencyBody
    rw [if_neg hneq]
    have htf : rateTruthy rates (ensureMainnetCode (jsToUpper fromCur)) = true :=
      (rateTruthy_eq_true_iff rates _).mpr ⟨rf, hrf, hrf0⟩
    have htt : rateTruthy rates (ensureMainnetCode (jsToUpper toCur)) = true :=
      (rateTruthy_eq_true_iff rates _).mpr ⟨rt, hrt, hrt0⟩
    rw [if_neg (by simp [htf]), if_neg (by simp [htt])]
    rw [getExchangeRate_of_normalized rates _ mf rf (ensureMainnetCode_idem _) hmf hrf]
    rw [getExchangeRate_of_normalized rates _ mt rt (ensureMainnetCode_idem _) hmt hrt]
    rcases hamt with h | h <;> subst h <;> simp [jsDiv, jsMul, hrf0]

/-- Witness for the amended C5: 10 BTC converted to USD at rates 1 and 50000. -/
theorem convertCurrency_rate_data_witness :
    convertCurrency (.num (some 10)) "BTC" "USD" [("BTC", 1), ("USD", 50000)] =
      .ok (.num (some ((10:ℚ) / 1 * 50000))) :=
  (convertCurrency_rate_data (.num (some 10)) 10 "BTC" "USD"
    [("BTC", 1), ("USD", 50000)] (Or.inl rfl) (by decide)).2 1 50000
    ⟨false, true, true, some ⟨"BTC", some 8⟩⟩
    ⟨true, false, false, some ⟨"USD", none⟩⟩
    (by decide) (by decide) (by decide) (by decide) (by decide) (by decide)


theorem alookup_eq_none_of_not_mem {β : Type} (l : List (String × β)) (c : String)
    (h : c ∉ l.map Prod.fst) : alookup l c = none := by
  induction l with
  | nil => rfl
  | cons kv rest ih =>
    obtain ⟨k, v⟩ := kv
    simp only [List.map_cons, List.mem_cons] at h
    push_neg at h
    have hk : k ≠ c := fun hkc => h.1 hkc.symm
    simp only [alookup, if_neg hk]
    exact ih h.2

theorem alookup_isSome_of_mem_keys {β : Type} (l : List (String × β)) (c : String)
    (h : c ∈ l.map Prod.fst) : (alookup l c).isSome = true := by
  induction l with
  | nil => simp at h
  | cons kv rest ih =>
    obtain ⟨k, v⟩ := kv
    by_cases hk : k = c
    · simp [alookup, hk]
    · simp only [List.map_cons, List.mem_cons] at h
      rcases h with h | h
      · exact absurd h.symm hk
      · simp only [alookup, if_neg hk]
        exact ih h

theorem mem_keys_of_alookup_eq_some {β : Type} (l : List (String × β)) (c : String)
    (v : β) (h : alookup l c = some v) : c ∈ l.map Prod.fst := by
  induction l with
  | nil => simp [alookup] at h
  | cons kv rest ih =>
    obtain ⟨k, w⟩ := kv
    by_cases hk : k = c
    · simp [hk]
    · simp only [alookup, if_neg hk] at h
      simp [ih h]

theorem alookup_append {β : Type} (l1 l2 : List (String × β)) (c : String) :
    alookup (l1 ++ l2) c = (alookup l1 c).orElse (fun _ => alookup l2 c) := by
  induction l1 with
  | nil => simp [alookup]
  | cons kv rest ih =>
    obtain ⟨k, v⟩ := kv
    by_cases hk : k = c <;> simp [alookup, hk, ih]

theorem alookup_replaceCoin (data : RateTable) (coin c : String) :
    alookup (data.map (fun kv => if kv.1 = coin then (kv.1, (1:ℚ)) else kv)) c =
      if c = coin then (alookup data coin).map (fun _ => (1:ℚ))
      else alookup data c := by
  induction data with
  | nil => simp [alookup]
  | cons kv rest ih =>
    obtain ⟨k, v⟩ := kv
    simp only [List.map_cons]
    by_cases hk : k = coin
    · rw [if_pos hk]
      by_cases hc : k = c
      · have hcc : c = coin := hc.symm.trans hk
        rw [if_pos hcc]
        simp only [alookup, if_pos hc, if_pos hk]
        rfl
      · have hcc : ¬(c = coin ∧ True) := by
          rintro ⟨hcc, -⟩
          exact hc (hk.trans hcc.symm)
        have hcc2 : c ≠ coin := fun h2 => hcc ⟨h2, trivial⟩
        rw [if_neg hcc2]
        simp only [alookup, if_neg hc, ih, if_neg hcc2]
    · rw [if_neg hk]
      by_cases hc : k = c
      · have hcc : c ≠ coin := fun h2 => hk (hc.trans h2)
        rw [if_neg hcc]
        simp only [alookup, if_pos hc]
      · by_cases hcoin : c = coin
        · rw [if_pos hcoin] at ih ⊢
          simp only [alookup, if_neg hc, if_neg hk, ih]
        · rw [if_neg hcoin]
          simp only [alookup, if_neg hc, ih, if_neg hcoin]

theorem lookupRate_withPivotRate (data : RateTable) (coin c : String) :
    lookupRate (withPivotRate data coin) c =
      if c = coin then some 1 else lookupRate data c := by
  unfold withPivotRate lookupRate
  by_cases hmem : coin ∈ data.map Prod.fst
  · rw [if_pos (by simpa using hmem), alookup_replaceCoin]
    by_cases hc : c = coin
    · subst hc
      obtain ⟨v, hv⟩ := Option.isSome_iff_exists.mp
        (alookup_isSome_of_mem_keys data c hmem)
      rw [if_pos rfl, if_pos rfl, hv]
      rfl
    · rw [if_neg hc, if_neg hc]
  · rw [if_neg (by simpa using hmem), alookup_append]
    have hnone : alookup data coin = none :=
      alookup_eq_none_of_not_mem data coin hmem
    by_cases hc : c = coin
    · subst hc
      rw [hnone, if_pos rfl]
      simp [alookup]
    · rw [if_neg hc]
      have hcoin : coin ≠ c := fun h2 => hc h2.symm
      cases h : alookup data c <;>
        simp [h, alookup, if_neg hcoin]

theorem mem_foldl_changedStep (old data : RateTable) (L : List String) :
    ∀ acc c, c ∈ L.foldl (changedStep old data) acc ↔
      c ∈ acc ∨ (c ∈ L ∧ lookupRate old c ≠ lookupRate data c) := by
  induction L with
  | nil => simp
  | cons a L ih =>
    intro acc c
    simp only [List.foldl_cons]
    rw [ih]
    unfold changedStep
    by_cases hstep : lookupRate old a ≠ lookupRate data a ∧ a ∉ acc
    · rw [if_pos hstep]
      simp only [List.mem_append, List.mem_singleton, List.mem_cons]
      constructor
      · rintro ((h | (h | h)) | h)
        · exact Or.inl h
        · subst h
          exact Or.inr ⟨Or.inl rfl, hstep.1⟩
        · simp at h
        · exact Or.inr ⟨Or.inr h.1, h.2⟩
      · rintro (h | ⟨(h | h), hd⟩)
        · exact Or.inl (Or.inl h)
        · subst h
          exact Or.inl (Or.inr (Or.inl rfl))
        · exact Or.inr ⟨h, hd⟩
    · rw [if_neg hstep]
      rw [Classical.not_and_iff_or_not_not, not_not, not_not] at hstep
      simp only [List.mem_cons]
      constructor
      · rintro (h | h)
        · exact Or.inl h
        · exact Or.inr ⟨Or.inr h.1, h.2⟩
      · rintro (h | ⟨(h | h), hd⟩)
        · exact Or.inl h
        · subst h
          rcases hstep with h2 | h2
          · exact absurd h2 hd
          · exact Or.inl h2
        · exact Or.inr ⟨h, hd⟩

theorem nodup_foldl_changedStep (old data : RateTable) (L : List String) :
    ∀ acc, acc.Nodup → (L.foldl (changedStep old data) acc).Nodup := by
  induction L with
  | nil => intro acc h; simpa using h
  | cons a L ih =>
    intro acc hacc
    simp only [List.foldl_cons]
    apply ih
    unfold changedStep
    by_cases hstep : lookupRate old a ≠ lookupRate data a ∧ a ∉ acc
    · rw [if_pos hstep]
      refine List.Nodup.append hacc (List.nodup_singleton a) ?_
      intro x hx hxa
      rw [List.mem_singleton] at hxa
      subst hxa
      exact hstep.2 hx
    · rw [if_neg hstep]
      exact hacc

theorem mem_changedCodes_iff (old data : RateTable) (c : String) :
    c ∈ changedCodes old data ↔ lookupRate old c ≠ lookupRate data c := by
  unfold changedCodes
  rw [mem_foldl_changedStep]
  simp only [List.not_mem_nil, false_or]
  constructor
  · rintro ⟨-, h⟩
    exact h
  · intro h
    refine ⟨?_, h⟩
    rw [List.mem_append]
    cases hold : lookupRate old c with
    | some v =>
      exact Or.inl (mem_keys_of_alookup_eq_some old c v hold)
    | none =>
      cases hdata : lookupRate data c with
      | some v =>
        exact Or.inr (mem_keys_of_alookup_eq_some data c v hdata)
      | none =>
        rw [hold, hdata] at h
        exact absurd rfl h

theorem changedCodes_nodup (old data : RateTable) :
    (changedCodes old data).Nodup :=
  nodup_foldl_changedStep old data _ [] List.nodup_nil

theorem changedCodes_eq_nil_iff (old data : RateTable) :
    changedCodes old data = [] ↔ ∀ c, lookupRate old c = lookupRate data c := by
  constructor
  · intro h c
    by_contra hc
    have := (mem_changedCodes_iff old data c).mpr hc
    rw [h] at this
    simp at this
  · intro h
    rw [List.eq_nil_iff_forall_not_mem]
    intro c hc
    exact ((mem_changedCodes_iff old data c).mp hc) (h c)

theorem onExchangeRatesFetched_newRates (old data : RateTable) (coin : String) :
    (onExchangeRatesFetched old data coin).newRates = withPivotRate data coin := rfl

theorem onExchangeRatesFetched_events (old data : RateTable) (coin : String) :
    (onExchangeRatesFetched old data coin).events =
      if changedCodes old data ≠ [] then
        RateEvent.exchangeRateChange (changedCodes old data) ::
          (changedCodes old data).map (fun cur =>
            RateEvent.exchangeRateChangeFor cur (lookupRate old cur))
      else [] := rfl

theorem countP_global_map (old : RateTable) (l : List String) :
    (l.map (fun cur => RateEvent.exchangeRateChangeFor cur (lookupRate old cur))).countP
      (fun e => match e with | .exchangeRateChange _ => true | _ => false) = 0 := by
  induction l with
  | nil => rfl
  | cons a l ih => simp [List.countP_cons, ih]

theorem countP_forCode_map (old : RateTable) (l : List String) (c : String) :
    (l.map (fun cur => RateEvent.exchangeRateChangeFor cur (lookupRate old cur))).countP
      (fun e => match e with
        | .exchangeRateChangeFor c2 _ => c2 == c
        | _ => false) = l.count c := by
  induction l with
  | nil => rfl
  | cons a l ih => simp [List.countP_cons, List.count_cons, ih]

/-- Claim C7: one completed fetch replaces the cache wholesale with the
fetched table plus the pivot coin mapped to 1, emits exactly one global
exchange-rate-change event exactly when some key differs between the old
cache and the fetched table, and emits exactly one per-code event for each
changed code, carrying that code previous value. -/
theorem fetchExchangeRates_events (old data : RateTable) (coin : String) :
    (∀ c, lookupRate (onExchangeRatesFetched old data coin).newRates c =
      if c = coin then some 1 else lookupRate data c) ∧
    ((onExchangeRatesFetched old data coin).events.countP
        (fun e => match e with | .exchangeRateChange _ => true | _ => false) = 1 ↔
      ∃ c, lookupRate old c ≠ lookupRate data c) ∧
    (∀ c, (onExchangeRatesFetched old data coin).events.countP
        (fun e => match e with
          | .exchangeRateChangeFor c2 _ => c2 == c
          | _ => false) =
      if lookupRate old c ≠ lookupRate data c then 1 else 0) ∧
    (∀ c p, RateEvent.exchangeRateChangeFor c p ∈
        (onExchangeRatesFetched old data coin).events → p = lookupRate old c) := by
  refine ⟨?_, ?_, ?_, ?_⟩
  · intro c
    rw [onExchangeRatesFetched_newRates]
    exact lookupRate_withPivotRate data coin c
  · rw [onExchangeRatesFetched_events]
    by_cases hch : changedCodes old data = []
    · rw [if_neg (fun hne => hne hch)]
      simp only [List.countP_nil]
      constructor
      · intro h
        cases h
      · rintro ⟨c, hc⟩
        exact absurd ((changedCodes_eq_nil_iff old data).mp hch c) hc
    · rw [if_pos hch]
      rw [List.countP_cons_of_pos _ _ (by rfl), countP_global_map]
      constructor
      · intro _
        obtain ⟨a, ha⟩ := List.exists_mem_of_ne_nil _ hch
        exact ⟨a, (mem_changedCodes_iff old data a).mp ha⟩
      · intro _
        rfl
  · intro c
    rw [onExchangeRatesFetched_events]
    by_cases hch : changedCodes old data = []
    · rw [if_neg (fun hne => hne hch)]
      rw [if_neg (fun hc => hc ((changedCodes_eq_nil_iff old data).mp hch c))]
      rfl
    · rw [if_pos hch]
      rw [List.countP_cons_of_neg _ _ (by rintro ⟨⟩), countP_forCode_map]
      by_cases hdiff : lookupRate old c ≠ lookupRate data c
      · rw [if_pos hdiff]
        exact List.count_eq_one_of_mem (changedCodes_nodup old data)
          ((mem_changedCodes_iff old data c).mpr hdiff)
      · rw [if_neg hdiff]
        refine List.count_eq_zero_of_not_mem ?_
        intro hmem
        exact hdiff ((mem_changedCodes_iff old data c).mp hmem)
  · intro c p hmem
    rw [onExchangeRatesFetched_events] at hmem
    by_cases hch : changedCodes old data = []
    · rw [if_neg (fun hne => hne hch)] at hmem
      cases hmem
    · rw [if_pos hch] at hmem
      rcases List.mem_cons.mp hmem with h | h
      · cases h
      · obtain ⟨cur, hcur, heq⟩ := List.mem_map.mp h
        injection heq with h1 h2
        rw [← h1, ← h2]

/-- Witness for C7: the per-code event for USD in a concrete fetch carries
the previous cached value 2. -/
theorem fetchExchangeRates_events_witness :
    (some 2 : Option ℚ) = lookupRate [("BTC", 1), ("USD", 2)] "USD" :=
  (fetchExchangeRates_events [("BTC", 1), ("USD", 2)] [("USD", 3)] "BTC").2.2.2
    "USD" (some 2) (by decide)
